import Mathlib

/-!
# Verification of the Email-Intel-Engine mailbox extraction and thread building

Shallow embedding of `src/dataExtraction.py` (the mailbox retrieval and
thread-reconstruction engine).  Translation conventions:

* Python dicts that preserve insertion order (`defaultdict(list)`,
  `thread_map`, `subject_map`) are modelled as insertion-ordered association
  lists `List (String × List α)` with `amInsert` appending a value to the
  entry of a key (creating the entry at the tail when absent), exactly like
  `thread_map[k].append(v)`.
* Python `set` iteration order is unspecified (string hashes are salted per
  process), so wherever the code iterates a set (`for root_id in roots:`)
  the model takes the enumeration as an explicit list parameter; `rootsList`
  computes the set's contents (first-occurrence order, duplicates removed).
* Timestamps (`date.timestamp()`, a Python float) are modelled as `Int`;
  only ordering and equality of timestamps matter to the engine.
* Library calls whose internals are outside this repository
  (`parsedate_to_datetime`, `strftime`, BeautifulSoup text extraction,
  `html2text`, Python's salted `hash`) are abstracted as function
  parameters; all control flow around them is translated from the source.
* `list.sort(key=...)` / `sort(key=..., reverse=True)` are Python's stable
  sorts; they are modelled by a stable insertion sort (`sortOrd`).
-/

/-- The normalized message record built by `extract_email_details`
(`src/dataExtraction.py` lines 161-176).  `thread_id` is `none` when the
`"thread_id"` key is absent from the Python dict (the key is only added for
a truthy, i.e. non-empty, native thread id).  The `sender`/`receiver`
fields are omitted: no claim mentions them. -/
structure MessageRecord where
  message_id : String
  datetime : String
  timestamp : Int
  subject : String
  body : String
  references : List String
  in_reply_to : String
  labels : List String
  thread_id : Option String
deriving DecidableEq

/-- Insertion-ordered association map, the model of Python's
`defaultdict(list)`: `amInsert m k v` is `m[k].append(v)` (a new key goes
to the end, as dict insertion order dictates). -/
def amInsert {α : Type} (m : List (String × List α)) (k : String) (v : α) :
    List (String × List α) :=
  match m with
  | [] => [(k, [v])]
  | (k', vs) :: rest =>
    if k' = k then (k', vs ++ [v]) :: rest else (k', vs) :: amInsert rest k v

/-- `m[k]` with default `[]` (first matching entry). -/
def amFindD {α : Type} (m : List (String × List α)) (k : String) : List α :=
  match m with
  | [] => []
  | (k', vs) :: rest => if k' = k then vs else amFindD rest k

/-- The keys of an association map, in insertion order. -/
def amKeys {α : Type} (m : List (String × List α)) : List String :=
  m.map Prod.fst

/-- Generic grouping fold: `for r in l: if key r is not None: m[key r].append(r)`.
Instantiated by the tier-1 grouping and by the subject grouping. -/
def groupFold {α : Type} (key : α → Option String) (l : List α) :
    List (String × List α) :=
  l.foldl (fun m r => match key r with
    | some k => amInsert m k r
    | none => m) []

/-- Stable insertion used to model Python's stable `list.sort`:
`keep x r = true` means the already-placed element `x` stays in front of
the incoming (earlier-in-input) element `r`. -/
def insOrd {α : Type} (keep : α → α → Bool) (r : α) : List α → List α
  | [] => [r]
  | x :: xs => if keep x r then x :: insOrd keep r xs else r :: x :: xs

/-- Stable sort by folding `insOrd` from the right (earlier input elements
are inserted later, landing in front of equal elements, which is exactly
Python's stability guarantee). -/
def sortOrd {α : Type} (keep : α → α → Bool) (l : List α) : List α :=
  l.foldr (insOrd keep) []

/-- `thread_messages.sort(key=lambda x: x["timestamp"])` — stable ascending
sort by timestamp (line 491). -/
def sortByTimestamp (l : List MessageRecord) : List MessageRecord :=
  sortOrd (fun x r => decide (x.timestamp < r.timestamp)) l

/-- Tier 1 (lines 389-395): group every record whose dict has a
`"thread_id"` key by that value. -/
def tier1Map (records : List MessageRecord) : List (String × List MessageRecord) :=
  groupFold (fun r => r.thread_id) records

/-- Membership test of `msg_id_map` (line 402): the dict comprehension
keeps records with a truthy (non-empty) `message_id`. -/
def inMsgIdMap (records : List MessageRecord) (id : String) : Bool :=
  id ≠ "" && records.any (fun r => r.message_id == id)

/-- Lookup in `msg_id_map`: for duplicate keys the comprehension's last
binding wins, hence `getLast?` of the matching records. -/
def msgIdFind (records : List MessageRecord) (id : String) :
    Option MessageRecord :=
  if id = "" then none
  else (records.filter (fun r => r.message_id == id)).getLast?

/-- `reply_map` (lines 405-419): for every record with a non-empty
`message_id`, add an edge from its truthy `in_reply_to` (if that id is in
`msg_id_map`) and from every entry of `references` that is in
`msg_id_map`, each pointing to the record's own id. -/
def replyMap (records : List MessageRecord) : List (String × List String) :=
  records.foldl (fun m r =>
    if r.message_id = "" then m
    else
      let m := if r.in_reply_to ≠ "" ∧ inMsgIdMap records r.in_reply_to then
          amInsert m r.in_reply_to r.message_id
        else m
      r.references.foldl (fun m ref =>
        if inMsgIdMap records ref then amInsert m ref r.message_id else m) m) []

/-- The contents of the Python set `roots` (lines 423-435): ids of records
with a non-empty `message_id` whose `in_reply_to` is not a key of
`msg_id_map`.  First-occurrence order, duplicates removed; theorems about
tier 2 quantify over enumerations that are permutations of this list,
because Python set iteration order is unspecified. -/
def rootsList (records : List MessageRecord) : List String :=
  records.foldl (fun acc r =>
    if r.message_id = "" then acc
    else if r.in_reply_to ≠ "" ∧ inMsgIdMap records r.in_reply_to then acc
    else if r.message_id ∈ acc then acc
    else acc ++ [r.message_id]) []

/-- `build_thread` (lines 440-449): depth-first traversal over `reply_map`
with the global `processed_msgs` visited set, appending each visited
record (looked up in `msg_id_map`) to `thread_map[thread_id]`.  The
Python recursion terminates because `processed_msgs` grows; here a fuel
argument bounds the nesting depth (`records.length + 1` suffices, since
every productive nested call marks a previously unprocessed id). -/
def dfsBuild (lookup : String → Option MessageRecord)
    (children : String → List String) :
    Nat → String → String → List String × List (String × List MessageRecord) →
    List String × List (String × List MessageRecord)
  | 0, _, _, st => st
  | fuel + 1, rootId, threadId, (processed, tm) =>
    if rootId ∈ processed then (processed, tm)
    else
      let st1 : List String × List (String × List MessageRecord) :=
        (rootId :: processed,
         match lookup rootId with
         | some r => amInsert tm threadId r
         | none => tm)
      (children rootId).foldl
        (fun st c => dfsBuild lookup children fuel c threadId st) st1

/-- Tier 2 (lines 451-457): `for root_id in roots: build_thread(root_id, root_id)`.
`rootOrder` is the (unspecified) iteration order of the `roots` set. -/
def tier2Map (records : List MessageRecord) (rootOrder : List String) :
    List (String × List MessageRecord) :=
  (rootOrder.foldl
    (fun st rootId =>
      dfsBuild (msgIdFind records) (amFindD (replyMap records))
        (records.length + 1) rootId rootId st)
    ([], [])).2

/-- Python-whitespace test for the regex class in a `str` pattern
(ASCII part; the claims only exercise ordinary spaces). -/
def isPyWs (c : Char) : Bool :=
  c = ' ' ∨ c = '\t' ∨ c = '\n' ∨ c = '\r' ∨ c = '\x0b' ∨ c = '\x0c'

/-- Drop the leading whitespace consumed by the greedy trailer of the
subject-normalization regex. -/
def dropWs : List Char → List Char
  | [] => []
  | c :: cs => if isPyWs c then dropWs cs else c :: cs

/-- `re.sub(r)` of line 465 on a character list: remove one leading
`Re:`/`Fwd:` (case-insensitive, alternation tries `Re` first) together
with the whitespace following it; anchored, so at most one removal. -/
def normalizeSubjectList (cs : List Char) : List Char :=
  match cs with
  | c1 :: c2 :: c3 :: rest =>
    if c1.toLower = 'r' ∧ c2.toLower = 'e' ∧ c3 = ':' then dropWs rest
    else
      match cs with
      | d1 :: d2 :: d3 :: d4 :: rest2 =>
        if d1.toLower = 'f' ∧ d2.toLower = 'w' ∧ d3.toLower = 'd' ∧ d4 = ':' then
          dropWs rest2
        else cs
      | _ => cs
  | _ => cs

/-- `normalized_subject = re.sub(r' ^ (?:Re|Fwd): \s* ', '', subject, IGNORECASE)`
(line 465, spaces added here to the pattern for readability). -/
def normalizeSubject (s : String) : String :=
  ⟨normalizeSubjectList s.data⟩

/-- Zero-padding of `f"{n:07d}"` for `0 ≤ n < 10^7`. -/
def pad7 (n : Nat) : String :=
  let s := toString n
  ⟨List.replicate (7 - s.length) '0' ++ s.data⟩

/-- `thread_id = f"thread_{hash(subject) % 10000000:07d}"` (line 470).
`hash` is Python's built-in string hash, a per-process salted function,
hence a parameter; `%` on a possibly negative hash matches `Int.emod`
(both give a result in `[0, 10^7)`). -/
def subjectThreadId (hash : String → Int) (subj : String) : String :=
  "thread_" ++ pad7 ((hash subj) % 10000000).toNat

/-- Tier 3 (lines 461-472): group by normalized subject, then append each
group's records under the synthetic hash-derived thread id. -/
def tier3Map (hash : String → Int) (records : List MessageRecord) :
    List (String × List MessageRecord) :=
  let subjectMap := groupFold (fun r => some (normalizeSubject r.subject)) records
  subjectMap.foldl (fun tm e =>
    e.2.foldl (fun tm r => amInsert tm (subjectThreadId hash e.1) r) tm) []

/-- The three-tier grouping of `_fetch_emails` (lines 389-472): tier 1 is
final when non-empty; otherwise tier 2 runs only `if reply_map:`, and
tier 3 runs only if the map is still empty. -/
def threadGroups (hash : String → Int) (rootOrder : List String)
    (records : List MessageRecord) : List (String × List MessageRecord) :=
  let t1 := tier1Map records
  if t1.isEmpty then
    let t2 := if (replyMap records).isEmpty then []
      else tier2Map records rootOrder
    if t2.isEmpty then tier3Map hash records else t2
  else t1

/-- The emitted thread object (lines 497-505), with `sort_timestamp`
recomputed on demand instead of stored-then-deleted. -/
structure ThreadRecord where
  thread_id : String
  total_messages : Nat
  labels : List String
  reply_to_message_id : String
  messages : List MessageRecord
deriving DecidableEq

/-- `thread_messages[-1]["timestamp"]`, the `sort_timestamp` of line 505
(only ever used on non-empty threads). -/
def lastTimestamp (t : ThreadRecord) : Int :=
  match t.messages.getLast? with
  | some m => m.timestamp
  | none => 0

/-- Finalization of one group (lines 491-505): sort ascending by
timestamp, take the label union (a Python `set`; modelled as `dedup` of
the concatenation — the claims constrain only its membership), the last
message's id, and the message count. -/
def mkThreadRecord (tid : String) (msgs : List MessageRecord) : ThreadRecord :=
  let sorted := sortByTimestamp msgs
  { thread_id := tid
    total_messages := sorted.length
    labels := (sorted.foldl (fun acc m => acc ++ m.labels) []).dedup
    reply_to_message_id :=
      match sorted.getLast? with
      | some m => m.message_id
      | none => ""
    messages := sorted }

/-- `threads.sort(key=lambda x: x["sort_timestamp"], reverse=True)`
(line 510) — stable descending sort by the last message's timestamp. -/
def sortThreadsDesc (l : List ThreadRecord) : List ThreadRecord :=
  sortOrd (fun x r => decide (lastTimestamp r < lastTimestamp x)) l

/-- Lines 483-510: iterate `thread_map.items()` in insertion order,
skip empty groups, build the thread objects, then sort descending. -/
def finalizeThreads (tm : List (String × List MessageRecord)) :
    List ThreadRecord :=
  sortThreadsDesc (tm.filterMap (fun e =>
    if e.2.isEmpty then none else some (mkThreadRecord e.1 e.2)))

/-- The whole thread-building stage of `_fetch_emails` (steps 7-8). -/
def buildThreads (hash : String → Int) (rootOrder : List String)
    (records : List MessageRecord) : List ThreadRecord :=
  finalizeThreads (threadGroups hash rootOrder records)

/-! ## Per-message extraction (`extract_email_details`, lines 80-181) -/

/-- Date resolution (lines 89-99): `email_message.get("Date")` is `None`
when absent; `if date_str:` is false for `None` and `""`; the
`parsedate_to_datetime` call is abstracted as `parse` (returning `none`
when the Python call raises), and any failure falls back to
`datetime.now(pytz.UTC)` (`now`). -/
def resolveDate (parse : String → Option Int) (now : Int)
    (dateHeader : Option String) : Int :=
  match dateHeader with
  | some s =>
    if s ≠ "" then
      match parse s with
      | some t => t
      | none => now
    else now
  | none => now

/-- Case-sensitive list containment used to model Python's `in` on
strings (after an explicit `.lower()`). -/
def startsWithList : List Char → List Char → Bool
  | _, [] => true
  | [], _ :: _ => false
  | c :: cs, p :: ps => c = p && startsWithList cs ps

/-- `pat in s` on character lists. -/
def containsList (s pat : List Char) : Bool :=
  match s with
  | [] => pat.isEmpty
  | _ :: rest => startsWithList s pat || containsList rest pat

/-- `pat in s.lower()` for a string (lowercasing character-wise; the
string-level `String.toLower` is avoided because its well-founded
recursion blocks kernel evaluation). -/
def containsLower (pat s : String) : Bool :=
  containsList (s.data.map Char.toLower) pat.data

/-- Guard of `clean_html_content` (line 51): the content is treated as
HTML only when it contains `<html`, `<body` or `<div`
(case-insensitively). -/
def hasHtmlMarker (html : String) : Bool :=
  containsLower "<html" html || containsLower "<body" html ||
    containsLower "<div" html

/-- `clean_html_content` (lines 46-78).  The BeautifulSoup structural
extraction (strip scripts/styles, join non-empty chunks) is abstracted as
`convert`, and the `html2text` Markdown-style fallback (with the link
rewriting of line 70) as `fallback`; the guard, the empty-input case and
the `len(text) < 50 and len(html_content) > 1000` heuristic are
translated from the source.  When the guard fails the input is returned
unchanged (line 78). -/
def clean_html_content (convert fallback : String → String)
    (html : String) : String :=
  if html = "" then ""
  else if hasHtmlMarker html then
    let text := convert html
    if text.length < 50 ∧ html.length > 1000 then fallback html else text
  else html

/-- One MIME part as seen by the extraction loop: its content type and
the result of `get_payload(decode=True)` decoded as UTF-8 with
replacement (`none` models both a `None` payload and a decode
exception). -/
structure RawPart where
  contentType : String
  payload : Option String
deriving DecidableEq

/-- The raw message handed to `extract_email_details`, with the
attributes the fetch loop attaches (`folder`, `thread_id`, `flags`). -/
structure RawEmail where
  multipart : Bool
  parts : List RawPart
  contentType : String
  payload : Option String
  dateHeader : Option String
  messageId : String
  subject : String
  flags : List String
  folder : String
  threadIdAttr : Option String
deriving DecidableEq

/-- `if payload:` — a `None` payload and empty bytes are both falsy. -/
def payloadTruthy : Option String → Option String
  | some p => if p = "" then none else some p
  | none => none

/-- The `walk()` scan of lines 108-114: the variables `html_part` /
`text_part` keep the LAST part of the given content type. -/
def lastPartOfType (parts : List RawPart) (ty : String) : Option RawPart :=
  parts.foldl (fun acc p => if p.contentType == ty then some p else acc) none

/-- Body selection (lines 101-145): prefer the (last) HTML part, cleaned;
if the resulting body is still falsy, fall back to the (last) plain-text
part; a non-multipart message applies the same HTML/plain branching to
its single payload. -/
def extractBody (convert fallback : String → String) (msg : RawEmail) :
    String :=
  if msg.multipart then
    let htmlPart := lastPartOfType msg.parts "text/html"
    let textPart := lastPartOfType msg.parts "text/plain"
    let body :=
      match htmlPart with
      | some p =>
        match payloadTruthy p.payload with
        | some content => clean_html_content convert fallback content
        | none => ""
      | none => ""
    if body = "" then
      match textPart with
      | some p =>
        match payloadTruthy p.payload with
        | some content => content
        | none => ""
      | none => ""
    else body
  else
    match payloadTruthy msg.payload with
    | some content =>
      if msg.contentType == "text/html" then
        clean_html_content convert fallback content
      else content
    | none => ""

/-- Label derivation (lines 147-159): the stringified flags, plus `SENT`
or `INBOX` when the folder name contains the substring (lowercased). -/
def flagLabels (flags : List String) (folder : String) : List String :=
  if folder ≠ "" then
    if containsLower "sent" folder then flags ++ ["SENT"]
    else if containsLower "inbox" folder then flags ++ ["INBOX"]
    else flags
  else flags

/-- `extract_email_details` (lines 80-181): total — every message gets a
record (the date fallback and the per-part decode fallbacks never raise).
`references` and `in_reply_to` are always emitted empty (lines 169-170),
and the `"thread_id"` key is added only for a truthy attribute
(lines 174-176). -/
def extract_email_details (parse : String → Option Int) (fmt : Int → String)
    (convert fallback : String → String) (now : Int) (msg : RawEmail) :
    MessageRecord :=
  let date := resolveDate parse now msg.dateHeader
  { message_id := msg.messageId
    datetime := fmt date
    timestamp := date
    subject := msg.subject
    body := extractBody convert fallback msg
    references := []
    in_reply_to := ""
    labels := flagLabels msg.flags msg.folder
    thread_id :=
      match msg.threadIdAttr with
      | some t => if t ≠ "" then some t else none
      | none => none }

/-! ## The per-folder fetch loop (`fetch_folder_emails`, lines 261-359) -/

/-- The store's responses for one message id of the search result:
the `X-GM-THRID` fetch (status/regex-match/exception), the `RFC822`
content fetch, and the `FLAGS` fetch. -/
structure MsgFetch where
  thridStatusOk : Bool
  thridMatch : Option String
  thridRaises : Bool
  contentOk : Bool
  raw : RawEmail
  flagsOk : Bool
  flags : List String
deriving DecidableEq

/-- One iteration of the message loop (lines 311-352).  `var` models the
Python local `thread_id`: `none` means the variable has never been
assigned, so reading it at `if thread_id:` (line 338) raises `NameError`,
which the outer per-message handler (line 350) catches, skipping the
message.  Returns the variable state left for the next iteration and the
record appended to `folder_emails` (if any). -/
def processMessage (isGmail : Bool) (folder : String)
    (parse : String → Option Int) (fmt : Int → String)
    (convert fallback : String → String) (now : Int)
    (var : Option (Option String)) (m : MsgFetch) :
    Option (Option String) × Option MessageRecord :=
  -- lines 312-322: the inner try around the X-GM-THRID fetch
  let var :=
    if isGmail then
      if m.thridRaises then some none
      else if m.thridStatusOk then
        match m.thridMatch with
        | some t => some (some t)
        | none => some none
      else var
    else var
  -- lines 324-334: RFC822 fetch; on failure `continue`
  if ¬ m.contentOk then (var, none)
  else
    -- line 338: `if thread_id:` — NameError when the local was never set
    match var with
    | none => (var, none)
    | some tid =>
      let raw :=
        { m.raw with
          folder := folder
          threadIdAttr :=
            match tid with
            | some t => if t ≠ "" then some t else none
            | none => none
          flags := if m.flagsOk then m.flags else [] }
      (some tid, some (extract_email_details parse fmt convert fallback now raw))

/-- The message loop with the `thread_id` variable threaded through the
iterations (it is a function-level local of `fetch_folder_emails`, so a
value assigned for one message leaks into the next). -/
def folderLoop (isGmail : Bool) (folder : String)
    (parse : String → Option Int) (fmt : Int → String)
    (convert fallback : String → String) (now : Int) :
    Option (Option String) → List MsgFetch → List MessageRecord
  | _, [] => []
  | var, m :: ms =>
    let res := processMessage isGmail folder parse fmt convert fallback now var m
    match res.2 with
    | some rec => rec :: folderLoop isGmail folder parse fmt convert fallback now res.1 ms
    | none => folderLoop isGmail folder parse fmt convert fallback now res.1 ms

/-- `fetch_folder_emails` message processing for one folder: the local
`thread_id` starts out never-assigned. -/
def fetchFolderEmails (isGmail : Bool) (folder : String)
    (parse : String → Option Int) (fmt : Int → String)
    (convert fallback : String → String) (now : Int)
    (msgs : List MsgFetch) : List MessageRecord :=
  folderLoop isGmail folder parse fmt convert fallback now none msgs

/-! ## Session-level control flow of `_fetch_emails` (lines 223-538) -/

/-- The observable store-side actions of one `_fetch_emails` run. -/
inductive StoreEvent
  | connect
  | login
  | listFolders
  | selectFolder (name : String)
  | logout
deriving DecidableEq

/-- The store's behaviour, abstracted: whether `mail.list()` returns
`'OK'`, and whether a given folder attempt yields a non-empty result
batch (covering selection failures, search failures and empty folders
alike — all are non-fatal inside `fetch_folder_emails`). -/
structure StoreBehavior where
  listOk : Bool
  folderYields : String → Bool

/-- The sent-folder candidates of line 362, tried in order until the
first that yields emails. -/
def sentFolderNames : List String :=
  ["[Gmail]/Sent Mail", "[Gmail]/Sent", "Sent", "Sent Items"]

/-- The select events of the sent-folder loop (lines 364-372): stop at
the first candidate whose fetch returns a non-empty list. -/
def trySentFolders (b : StoreBehavior) : List String → List StoreEvent
  | [] => []
  | f :: fs =>
    if b.folderYields f then [StoreEvent.selectFolder f]
    else StoreEvent.selectFolder f :: trySentFolders b fs

/-- The store-side event trace of `_fetch_emails` after a successful
connect and login, and whether the run returns a path (`true`) or the
failure sentinel `""` (`false`).  Lines 243-246: a non-`'OK'` folder
listing returns the sentinel immediately — before the `mail.logout()` of
line 383, which only the straight-line path reaches. -/
def fetchEmailsTrace (b : StoreBehavior) : List StoreEvent × Bool :=
  let base := [StoreEvent.connect, StoreEvent.login, StoreEvent.listFolders]
  if ¬ b.listOk then (base, false)
  else
    (base ++ trySentFolders b sentFolderNames ++
      [StoreEvent.selectFolder "INBOX", StoreEvent.logout], true)

/-! ## Concrete example data used by witnesses and counterexamples -/

/-- A plain single-part message whose content fetch succeeds. -/
def exRawPlain : RawEmail :=
  { multipart := false, parts := [], contentType := "text/plain"
    payload := some "hello", dateHeader := none, messageId := "m"
    subject := "s", flags := [], folder := "", threadIdAttr := none }

/-- A message with a malformed date header. -/
def exRawBadDate : RawEmail := { exRawPlain with dateHeader := some "garbage" }

/-- A single-part HTML message whose content has a tag but none of the
`<html>`/`<body>`/`<div>` markers. -/
def exRawHtmlFragment : RawEmail :=
  { exRawPlain with contentType := "text/html", payload := some "<p>Hi</p>" }

/-- A successfully fetched message (its native-thread-id response also
matches). -/
def exMsgOk : MsgFetch :=
  { thridStatusOk := true, thridMatch := some "123", thridRaises := false
    contentOk := true, raw := exRawPlain, flagsOk := true, flags := ["S"] }

/-- A store whose folder listing returns a non-`'OK'` status. -/
def exListFailBehavior : StoreBehavior :=
  { listOk := false, folderYields := fun _ => true }

/-- A store that lists folders but yields nothing from any folder. -/
def exListOkBehavior : StoreBehavior :=
  { listOk := true, folderYields := fun _ => false }

/-- Base record for thread-builder examples. -/
def exRec : MessageRecord :=
  { message_id := "a", datetime := "", timestamp := 10, subject := "S"
    body := "", references := [], in_reply_to := "", labels := ["L1"]
    thread_id := none }

/-- The reply-graph scenario of the spec: `A` (no parent), `B` replying
to `A`, `C` referencing `A`, `D` replying to a nonexistent id. -/
def recA : MessageRecord := exRec
def recB : MessageRecord :=
  { exRec with message_id := "b", timestamp := 20, in_reply_to := "a" }
def recC : MessageRecord :=
  { exRec with message_id := "c", timestamp := 30, references := ["a"] }
def recD : MessageRecord :=
  { exRec with message_id := "d", timestamp := 40, in_reply_to := "zzz" }

/-- The four-record input of the reply-graph scenario. -/
def replyScenario : List MessageRecord := [recA, recB, recC, recD]

/-- Records sharing a native thread id, with tied timestamps. -/
def tieRec1 : MessageRecord :=
  { exRec with message_id := "m1", timestamp := 100, thread_id := some "T" }
def tieRec2 : MessageRecord :=
  { exRec with message_id := "m2", timestamp := 100, thread_id := some "T" }

/-- Records with a native thread id and distinct timestamps. -/
def natRec1 : MessageRecord :=
  { exRec with message_id := "m1", timestamp := 100, thread_id := some "T"
               labels := ["L1"] }
def natRec2 : MessageRecord :=
  { exRec with message_id := "m2", timestamp := 200, thread_id := some "T"
               labels := ["L2"] }

/-- A record with an empty `message_id` (fetched and normalized, but
invisible to the reply-graph tier). -/
def recEmptyId : MessageRecord :=
  { exRec with message_id := "", timestamp := 50, in_reply_to := "" }

/-- Messages with timestamps 300, 100 and 200. -/
def ex300 : MessageRecord := { exRec with message_id := "x300", timestamp := 300 }
def ex100 : MessageRecord := { exRec with message_id := "x100", timestamp := 100 }
def ex200 : MessageRecord := { exRec with message_id := "x200", timestamp := 200 }

/-- Three single-message groups whose latest timestamps are 300, 100
and 200. -/
def exGroups300 : List (String × List MessageRecord) :=
  [("t1", [ex300]), ("t2", [ex100]), ("t3", [ex200])]

/-- Subject-tier records with two different, non-collapsible subjects. -/
def subjRec1 : MessageRecord := { exRec with message_id := "", subject := "Alpha" }
def subjRec2 : MessageRecord := { exRec with message_id := "", subject := "Beta" }

/-- Subject-tier records for the spec's collapse examples. -/
def sQuarter : MessageRecord :=
  { exRec with message_id := "", subject := "Quarterly Sync" }
def sReQuarter : MessageRecord :=
  { exRec with message_id := "", subject := "Re: Quarterly Sync" }
def sFwdQuarter : MessageRecord :=
  { exRec with message_id := "", subject := "Fwd: Quarterly Sync" }
def sDouble : MessageRecord :=
  { exRec with message_id := "", subject := "Quarterly  Sync" }

/-- Two records land in the same thread of a grouping. -/
def inSameThread (tm : List (String × List MessageRecord))
    (r1 r2 : MessageRecord) : Prop :=
  ∃ t, r1 ∈ amFindD tm t ∧ r2 ∈ amFindD tm t

/-! # Theorems -/

/-! ## Stable-sort helper lemmas -/

theorem insOrd_perm {α : Type} (keep : α → α → Bool) (r : α) (l : List α) :
    (insOrd keep r l).Perm (r :: l) := by
  induction l with
  | nil => exact List.Perm.refl _
  | cons x xs ih =>
    by_cases h : keep x r
    · simp only [insOrd, h, if_true]
      exact (ih.cons x).trans (List.Perm.swap r x xs)
    · simp only [insOrd, h, if_false]
      exact List.Perm.refl _

theorem sortOrd_perm {α : Type} (keep : α → α → Bool) (l : List α) :
    (sortOrd keep l).Perm l := by
  induction l with
  | nil => exact List.Perm.refl _
  | cons x xs ih =>
    exact (insOrd_perm keep x (sortOrd keep xs)).trans (ih.cons x)

theorem insOrd_pairwise {α : Type} (R : α → α → Prop) (lt : α → α → Bool)
    (h1 : ∀ a b, lt a b = true → R a b) (h2 : ∀ a b, lt a b = false → R b a)
    (htrans : ∀ a b c, R a b → R b c → R a c) (r : α) (l : List α)
    (hl : l.Pairwise R) : (insOrd lt r l).Pairwise R := by
  induction l with
  | nil => simp [insOrd]
  | cons x xs ih =>
    rcases List.pairwise_cons.1 hl with ⟨hx, hxs⟩
    by_cases h : lt x r
    · simp only [insOrd, h, if_true]
      refine List.pairwise_cons.2 ⟨?_, ih hxs⟩
      intro y hy
      rcases List.mem_cons.1 ((insOrd_perm lt r xs).mem_iff.1 hy) with rfl | hyxs
      · exact h1 x y h
      · exact hx y hyxs
    · simp only [insOrd, h, if_false]
      refine List.pairwise_cons.2 ⟨?_, hl⟩
      intro y hy
      rcases List.mem_cons.1 hy with rfl | hyxs
      · exact h2 y r (by simpa using h)
      · exact htrans r x y (h2 x r (by simpa using h)) (hx y hyxs)

theorem sortOrd_pairwise {α : Type} (R : α → α → Prop) (lt : α → α → Bool)
    (h1 : ∀ a b, lt a b = true → R a b) (h2 : ∀ a b, lt a b = false → R b a)
    (htrans : ∀ a b c, R a b → R b c → R a c) (l : List α) :
    (sortOrd lt l).Pairwise R := by
  induction l with
  | nil => simp [sortOrd]
  | cons x xs ih => exact insOrd_pairwise R lt h1 h2 htrans x (sortOrd lt xs) ih

theorem sortByTimestamp_perm (l : List MessageRecord) :
    (sortByTimestamp l).Perm l :=
  sortOrd_perm _ l

theorem sortByTimestamp_pairwise (l : List MessageRecord) :
    (sortByTimestamp l).Pairwise (fun a b => a.timestamp ≤ b.timestamp) := by
  refine sortOrd_pairwise _ _ ?_ ?_ ?_ l
  · intro a b h
    exact le_of_lt (of_decide_eq_true h)
  · intro a b h
    exact le_of_not_lt (of_decide_eq_false h)
  · intro a b c hab hbc
    exact le_trans hab hbc

theorem sortThreadsDesc_perm (l : List ThreadRecord) :
    (sortThreadsDesc l).Perm l :=
  sortOrd_perm _ l

theorem sortThreadsDesc_pairwise (l : List ThreadRecord) :
    (sortThreadsDesc l).Pairwise (fun a b => lastTimestamp b ≤ lastTimestamp a) := by
  refine sortOrd_pairwise _ _ ?_ ?_ ?_ l
  · intro a b h
    exact le_of_lt (of_decide_eq_true h)
  · intro a b h
    exact le_of_not_lt (of_decide_eq_false h)
  · intro a b c hab hbc
    exact le_trans hbc hab

theorem mem_labels_foldl (l : List MessageRecord) (x : String) :
    ∀ acc, x ∈ l.foldl (fun acc m => acc ++ m.labels) acc ↔
      x ∈ acc ∨ ∃ m ∈ l, x ∈ m.labels := by
  induction l with
  | nil => intro acc; simp
  | cons m ms ih =>
    intro acc
    rw [List.foldl_cons, ih (acc ++ m.labels)]
    simp only [List.mem_append, List.mem_cons]
    constructor
    · rintro ((h | h) | ⟨m', hm', hx⟩)
      · exact Or.inl h
      · exact Or.inr ⟨m, Or.inl rfl, h⟩
      · exact Or.inr ⟨m', Or.inr hm', hx⟩
    · rintro (h | ⟨m', (rfl | hm'), hx⟩)
      · exact Or.inl (Or.inl h)
      · exact Or.inl (Or.inr hx)
      · exact Or.inr ⟨m', hm', hx⟩

/-! ## Claim C3: date fallback -/

/-- A missing or unparsable date header falls back to `now`
(`resolveDate` mirrors lines 89-99). -/
theorem resolveDate_fallback (parse : String → Option Int) (now : Int) :
    ∀ hdr, (hdr = none ∨ hdr = some "" ∨ ∃ s, hdr = some s ∧ parse s = none) →
      resolveDate parse now hdr = now := by
  intro hdr h
  rcases h with rfl | rfl | ⟨s, rfl, hp⟩
  · rfl
  · simp [resolveDate]
  · by_cases hs : s = ""
    · simp [resolveDate, hs]
    · simp [resolveDate, hs, hp]

/-- C3: for every raw message, normalization is total (every message gets
a record), the record's timestamp is never missing — when the `Date`
header is absent, empty, or fails to parse, the current UTC time `now` is
substituted — and the formatted datetime field is derived from the same
substituted time. -/
theorem c3_timestamp_never_null (parse : String → Option Int)
    (fmt : Int → String) (convert fallback : String → String) (now : Int)
    (msg : RawEmail)
    (h : msg.dateHeader = none ∨ msg.dateHeader = some "" ∨
         ∃ s, msg.dateHeader = some s ∧ parse s = none) :
    (extract_email_details parse fmt convert fallback now msg).timestamp = now ∧
    (extract_email_details parse fmt convert fallback now msg).datetime = fmt now := by
  have hd : resolveDate parse now msg.dateHeader = now :=
    resolveDate_fallback parse now msg.dateHeader h
  constructor
  · show resolveDate parse now msg.dateHeader = now
    exact hd
  · show fmt (resolveDate parse now msg.dateHeader) = fmt now
    rw [hd]

/-- Witness for C3 at a concrete unparsable header. -/
theorem c3_witness :
    ((exRawBadDate.dateHeader = none ∨ exRawBadDate.dateHeader = some "" ∨
      ∃ s, exRawBadDate.dateHeader = some s ∧ (fun (_ : String) => (none : Option Int)) s = none)) ∧
    (extract_email_details (fun _ => none) (fun t => toString t) id id 77 exRawBadDate).timestamp = 77 := by
  refine ⟨Or.inr (Or.inr ⟨"garbage", rfl, rfl⟩), ?_⟩
  exact (c3_timestamp_never_null (fun _ => none) (fun t => toString t) id id 77
    exRawBadDate (Or.inr (Or.inr ⟨"garbage", rfl, rfl⟩))).1

/-! ## Claim C6: HTML bodies -/

/-- Counterexample to C6 as stated: a `text/html` payload containing a
tag but none of the `<html>`/`<body>`/`<div>` markers is stored verbatim
— the raw HTML, not its plain-text conversion — whatever the conversion
functions would have produced. -/
theorem c6_counterexample :
    clean_html_content (fun _ => "Hi") (fun _ => "Hi") "<p>Hi</p>" = "<p>Hi</p>" ∧
    extractBody (fun _ => "Hi") (fun _ => "Hi") exRawHtmlFragment = "<p>Hi</p>" ∧
    "<p>Hi</p>" ≠ "Hi" := by
  refine ⟨by decide, by decide, by decide⟩

/-- C6 amended: when the selected body source is an HTML part, the stored
body is `clean_html_content` of its payload; the conversion (structural,
or the Markdown-style fallback under the `< 50`/`> 1000` heuristic) is
applied only when the content contains `<html`, `<body` or `<div`
case-insensitively — otherwise the raw HTML is returned unchanged. -/
theorem c6_amended (convert fallback : String → String) (content : String)
    (hc : content ≠ "") :
    (∀ msg : RawEmail, msg.multipart = false → msg.contentType = "text/html" →
      msg.payload = some content →
      extractBody convert fallback msg = clean_html_content convert fallback content) ∧
    (hasHtmlMarker content = false →
      clean_html_content convert fallback content = content) ∧
    (hasHtmlMarker content = true →
      clean_html_content convert fallback content =
        (if (convert content).length < 50 ∧ content.length > 1000
         then fallback content else convert content)) := by
  refine ⟨?_, ?_, ?_⟩
  · intro msg hm hct hp
    simp [extractBody, hm, hct, hp, payloadTruthy, hc]
  · intro hmark
    simp [clean_html_content, hc, hmark]
  · intro hmark
    simp [clean_html_content, hc, hmark]

/-- Witness for C6 amended at a concrete marker-free fragment. -/
theorem c6_witness :
    ("<p>Hi</p>" ≠ "") ∧
    clean_html_content (fun _ => "Hi") (fun _ => "FB") "<p>Hi</p>" = "<p>Hi</p>" := by
  refine ⟨by decide, ?_⟩
  exact (c6_amended (fun _ => "Hi") (fun _ => "FB") "<p>Hi</p>" (by decide)).2.1 (by decide)

/-! ## Claim C8: best-effort native-thread-id retrieval -/

/-- The `thread_id` local stays unassigned forever on non-Gmail servers,
so every message is skipped. -/
theorem folderLoop_non_gmail_empty (folder : String)
    (parse : String → Option Int) (fmt : Int → String)
    (convert fallback : String → String) (now : Int) :
    ∀ msgs, folderLoop false folder parse fmt convert fallback now none msgs = [] := by
  intro msgs
  induction msgs with
  | nil => rfl
  | cons m ms ih =>
    show folderLoop false folder parse fmt convert fallback now none (m :: ms) = []
    by_cases hc : m.contentOk
    · simp only [folderLoop, processMessage, hc]
      simpa using ih
    · simp only [folderLoop, processMessage]
      simp only [hc]
      simpa using ih

/-- C8 is a code bug: the Python local `thread_id` is read at
`if thread_id:` (line 338) without ever being initialized; whenever the
store is not the Gmail server (or the first thread-id response does not
match), the read raises `NameError`, the per-message handler catches it,
and the message is skipped.  On a non-Gmail server every message of every
folder is skipped, even though its content fetch succeeded — the claim
(and the spec) say the message must still be normalized and included. -/
theorem c8_code_bug :
    (∀ folder parse fmt convert fallback now msgs,
      fetchFolderEmails false folder parse fmt convert fallback now msgs = []) ∧
    exMsgOk.contentOk = true ∧
    fetchFolderEmails false "INBOX" (fun _ => none) (fun _ => "") id id 0
      [exMsgOk] = [] ∧
    fetchFolderEmails true "INBOX" (fun _ => none) (fun _ => "") id id 0
      [{ exMsgOk with thridStatusOk := false }] = [] := by
  refine ⟨?_, rfl, ?_, ?_⟩
  · intro folder parse fmt convert fallback now msgs
    exact folderLoop_non_gmail_empty folder parse fmt convert fallback now msgs
  · exact folderLoop_non_gmail_empty "INBOX" (fun _ => none) (fun _ => "") id id 0 [exMsgOk]
  · rfl

/-! ## Claim C9: logout guarantee -/

/-- Counterexample to C9 as stated: when `mail.list()` returns a
non-`'OK'` status (line 244), `_fetch_emails` returns the failure
sentinel immediately (line 246), after a successful login but without
ever reaching the `mail.logout()` of line 383. -/
theorem c9_counterexample :
    StoreEvent.login ∈ (fetchEmailsTrace exListFailBehavior).1 ∧
    StoreEvent.logout ∉ (fetchEmailsTrace exListFailBehavior).1 ∧
    (fetchEmailsTrace exListFailBehavior).2 = false := by
  refine ⟨by decide, by decide, by decide⟩

/-- C9 amended: on every run whose folder listing succeeds, logout is
always attempted before returning, whatever the per-folder outcomes
(selection/search/message failures included); but a folder-listing
failure returns the sentinel without logout. -/
theorem c9_amended (b : StoreBehavior) (h : b.listOk = true) :
    StoreEvent.logout ∈ (fetchEmailsTrace b).1 ∧
    (fetchEmailsTrace b).2 = true := by
  constructor
  · simp [fetchEmailsTrace, h]
  · simp [fetchEmailsTrace, h]

/-- Witness for C9 amended: a store whose listing succeeds but whose
every folder fails still gets a logout. -/
theorem c9_witness :
    exListOkBehavior.listOk = true ∧
    StoreEvent.logout ∈ (fetchEmailsTrace exListOkBehavior).1 := by
  exact ⟨rfl, (c9_amended exListOkBehavior rfl).1⟩

/-! ## Claim C2: thread finalization -/

/-- C2: every emitted thread has its messages sorted ascending by
timestamp, `total_messages` equal to the message count, labels whose
membership is exactly the union of the member labels, and
`reply_to_message_id` equal to the id of its last (most recent) message;
every non-empty group yields exactly such a thread (with the group's key
and messages); the result sequence is sorted descending by each thread's
last-message timestamp; and groups with latest timestamps 300, 100, 200
come out ordered 300, 200, 100. -/
theorem c2_finalization :
    (∀ tm : List (String × List MessageRecord), ∀ t ∈ finalizeThreads tm,
        t.messages.Pairwise (fun a b => a.timestamp ≤ b.timestamp) ∧
        t.total_messages = t.messages.length ∧
        (∀ lab, lab ∈ t.labels ↔ ∃ m ∈ t.messages, lab ∈ m.labels) ∧
        (∃ m, t.messages.getLast? = some m ∧
          t.reply_to_message_id = m.message_id)) ∧
    (∀ tm : List (String × List MessageRecord), ∀ e ∈ tm, e.2 ≠ [] →
        mkThreadRecord e.1 e.2 ∈ finalizeThreads tm ∧
        (mkThreadRecord e.1 e.2).messages.Perm e.2 ∧
        (mkThreadRecord e.1 e.2).thread_id = e.1) ∧
    (∀ tm : List (String × List MessageRecord),
        (finalizeThreads tm).Pairwise
          (fun a b => lastTimestamp b ≤ lastTimestamp a)) ∧
    (finalizeThreads exGroups300).map lastTimestamp = [300, 200, 100] := by
  have hshape : ∀ (tid : String) (msgs : List MessageRecord), msgs ≠ [] →
      (mkThreadRecord tid msgs).messages.Pairwise
        (fun a b => a.timestamp ≤ b.timestamp) ∧
      (mkThreadRecord tid msgs).total_messages =
        (mkThreadRecord tid msgs).messages.length ∧
      (∀ lab, lab ∈ (mkThreadRecord tid msgs).labels ↔
        ∃ m ∈ (mkThreadRecord tid msgs).messages, lab ∈ m.labels) ∧
      (∃ m, (mkThreadRecord tid msgs).messages.getLast? = some m ∧
        (mkThreadRecord tid msgs).reply_to_message_id = m.message_id) := by
    intro tid msgs hne
    have hsne : sortByTimestamp msgs ≠ [] := by
      intro h
      apply hne
      have hlen := (sortByTimestamp_perm msgs).length_eq
      rw [h] at hlen
      exact List.length_eq_zero.1 hlen.symm
    refine ⟨sortByTimestamp_pairwise msgs, rfl, ?_, ?_⟩
    · intro lab
      show lab ∈ ((sortByTimestamp msgs).foldl
          (fun acc m => acc ++ m.labels) []).dedup ↔
        ∃ m ∈ sortByTimestamp msgs, lab ∈ m.labels
      rw [List.mem_dedup, mem_labels_foldl _ _ []]
      simp
    · rcases hg : (sortByTimestamp msgs).getLast? with _ | m
      · exact absurd (List.getLast?_eq_none_iff.1 hg) hsne
      · refine ⟨m, hg, ?_⟩
        show (match (sortByTimestamp msgs).getLast? with
          | some m => m.message_id
          | none => "") = m.message_id
        rw [hg]
  refine ⟨?_, ?_, fun tm => sortThreadsDesc_pairwise _, by decide⟩
  · intro tm t ht
    have ht' := (sortThreadsDesc_perm _).mem_iff.1 ht
    rcases List.mem_filterMap.1 ht' with ⟨e, _, hstep⟩
    by_cases hE : e.2.isEmpty
    · rw [if_pos hE] at hstep
      exact absurd hstep (by simp)
    · rw [if_neg hE] at hstep
      rcases Option.some.inj hstep with rfl
      exact hshape e.1 e.2 (by simpa using hE)
  · intro tm e he hne
    have hE : e.2.isEmpty = false := by
      simpa using hne
    refine ⟨?_, (sortByTimestamp_perm e.2), rfl⟩
    refine (sortThreadsDesc_perm _).mem_iff.2 ?_
    exact List.mem_filterMap.2 ⟨e, he, by rw [hE]; rfl⟩

/-- Witness for C2 at the concrete 300/100/200 groups. -/
theorem c2_witness :
    ((("t1", [ex300]) : String × List MessageRecord) ∈ exGroups300 ∧
      [ex300] ≠ []) ∧
    mkThreadRecord "t1" [ex300] ∈ finalizeThreads exGroups300 := by
  refine ⟨⟨by decide, by decide⟩, ?_⟩
  exact (c2_finalization.2.1 exGroups300 ("t1", [ex300]) (by decide)
    (by decide)).1

/-! ## Association-map and grouping lemmas -/

theorem amFindD_amInsert {α : Type} (m : List (String × List α)) (k : String)
    (v : α) (t : String) :
    amFindD (amInsert m k v) t =
      if t = k then amFindD m t ++ [v] else amFindD m t := by
  induction m with
  | nil =>
    by_cases h : t = k
    · subst h
      simp [amInsert, amFindD]
    · simp [amInsert, amFindD, h, Ne.symm h]
  | cons e rest ih =>
    rcases e with ⟨k', vs⟩
    by_cases hk : k' = k
    · subst hk
      by_cases ht : t = k'
      · subst ht
        simp [amInsert, amFindD]
      · simp [amInsert, amFindD, ht, Ne.symm ht]
    · by_cases ht : t = k'
      · subst ht
        simp [amInsert, amFindD, hk]
      · simp [amInsert, amFindD, hk, Ne.symm ht, ih]

theorem amInsert_ne_nil {α : Type} (m : List (String × List α)) (k : String)
    (v : α) : amInsert m k v ≠ [] := by
  cases m with
  | nil => simp [amInsert]
  | cons e rest =>
    rcases e with ⟨k', vs⟩
    by_cases h : k' = k <;> simp [amInsert, h]

theorem groupFold_find {α : Type} (key : α → Option String)
    (l : List α) (t : String) :
    amFindD (groupFold key l) t =
      l.filter (fun r => decide (key r = some t)) := by
  suffices h : ∀ m, amFindD (l.foldl (fun m r => match key r with
      | some k => amInsert m k r
      | none => m) m) t =
      amFindD m t ++ l.filter (fun r => decide (key r = some t)) by
    simpa [groupFold, amFindD] using h []
  induction l with
  | nil => intro m; simp
  | cons x xs ih =>
    intro m
    simp only [List.foldl_cons, List.filter_cons]
    rcases hx : key x with _ | k
    · simp [hx, ih]
    · simp only [hx]
      rw [ih, amFindD_amInsert]
      by_cases ht : t = k
      · subst ht
        simp
      · simp [ht, Ne.symm ht]

theorem groupFold_ne_nil {α : Type} (key : α → Option String) (l : List α)
    (h : ∃ r ∈ l, (key r).isSome) : groupFold key l ≠ [] := by
  have main : ∀ (ll : List α) (m : List (String × List α)),
      ((∃ r ∈ ll, (key r).isSome) ∨ m ≠ []) →
      ll.foldl (fun m r => match key r with
        | some k => amInsert m k r
        | none => m) m ≠ [] := by
    intro ll
    induction ll with
    | nil =>
      rintro m (⟨r, hr, _⟩ | hm)
      · exact absurd hr (List.not_mem_nil r)
      · exact hm
    | cons x xs ih =>
      intro m hm
      simp only [List.foldl_cons]
      rcases hx : key x with _ | k
      · simp only [hx]
        refine ih m ?_
        rcases hm with ⟨r, hr, hs⟩ | hm
        · rcases List.mem_cons.1 hr with rfl | hr'
          · rw [hx] at hs
            exact absurd hs (by simp)
          · exact Or.inl ⟨r, hr', hs⟩
        · exact Or.inr hm
      · simp only [hx]
        exact ih (amInsert m k x) (Or.inr (amInsert_ne_nil m k x))
  exact main l [] (Or.inl h)

theorem groupFold_vals {α : Type} (key : α → Option String) (l : List α) :
    ∀ e ∈ groupFold key l, ∀ x ∈ e.2, key x = some e.1 := by
  have ins : ∀ (m : List (String × List α)) (k : String) (v : α),
      (∀ e ∈ m, ∀ x ∈ e.2, key x = some e.1) → key v = some k →
      ∀ e ∈ amInsert m k v, ∀ x ∈ e.2, key x = some e.1 := by
    intro m
    induction m with
    | nil =>
      intro k v _ hv e he x hx
      simp only [amInsert, List.mem_singleton] at he
      subst he
      simp only [List.mem_singleton] at hx
      subst hx
      exact hv
    | cons p rest ih =>
      rcases p with ⟨k', vs⟩
      intro k v hP hv e he x hx
      by_cases hk : k' = k
      · subst hk
        simp only [amInsert, if_true] at he
        rcases List.mem_cons.1 he with rfl | he'
        · simp only [List.mem_append, List.mem_singleton] at hx
          rcases hx with hx | rfl
          · exact hP (k', vs) (List.mem_cons_self _ _) x hx
          · exact hv
        · exact hP e (List.mem_cons_of_mem _ he') x hx
      · simp only [amInsert, hk, if_false] at he
        rcases List.mem_cons.1 he with rfl | he'
        · exact hP (k', vs) (List.mem_cons_self _ _) x hx
        · exact ih k v (fun e' he'' => hP e' (List.mem_cons_of_mem _ he'')) hv
            e he' x hx
  have main : ∀ (ll : List α) (m : List (String × List α)),
      (∀ e ∈ m, ∀ x ∈ e.2, key x = some e.1) →
      ∀ e ∈ ll.foldl (fun m r => match key r with
        | some k => amInsert m k r
        | none => m) m, ∀ x ∈ e.2, key x = some e.1 := by
    intro ll
    induction ll with
    | nil =>
      intro m hm
      exact hm
    | cons x xs ih =>
      intro m hm
      simp only [List.foldl_cons]
      rcases hx : key x with _ | k
      · simp only [hx]
        exact ih m hm
      · simp only [hx]
        exact ih (amInsert m k x) (ins m k x hm hx)
  intro e he
  exact main l [] (by simp) e he

/-! ## Claim C1: native-id tier precedence -/

/-- C1: when at least one record carries a native thread id, the final
grouping is literally the tier-1 map; the group of every native id `t` is
exactly the records whose native id is `t`, in input order; every member
of every output group carries the group's native id; and records without
a native id appear in no group (tiers 2 and 3 are not consulted — the
grouping equals `tier1Map` whatever the reply pointers or subjects). -/
theorem c1_native_tier (hash : String → Int) (rootOrder : List String)
    (records : List MessageRecord)
    (h : ∃ r ∈ records, r.thread_id.isSome) :
    threadGroups hash rootOrder records = tier1Map records ∧
    (∀ t, amFindD (tier1Map records) t =
      records.filter (fun r => decide (r.thread_id = some t))) ∧
    (∀ e ∈ threadGroups hash rootOrder records, ∀ m ∈ e.2,
      m.thread_id = some e.1) ∧
    (∀ r ∈ records, r.thread_id = none →
      ∀ e ∈ threadGroups hash rootOrder records, r ∉ e.2) := by
  have hne : tier1Map records ≠ [] := groupFold_ne_nil _ records h
  have hgate : threadGroups hash rootOrder records = tier1Map records := by
    unfold threadGroups
    rw [if_neg (by simpa using hne)]
  have hvals : ∀ e ∈ tier1Map records, ∀ m ∈ e.2, m.thread_id = some e.1 := by
    intro e he m hm
    unfold tier1Map at he
    exact groupFold_vals (fun r => r.thread_id) records e he m hm
  refine ⟨hgate, ?_, ?_, ?_⟩
  · intro t
    unfold tier1Map
    exact groupFold_find (fun r => r.thread_id) records t
  · intro e he m hm
    rw [hgate] at he
    exact hvals e he m hm
  · intro r _ hnone e he hmem
    rw [hgate] at he
    have hr := hvals e he r hmem
    rw [hnone] at hr
    exact Option.noConfusion hr

/-- Witness for C1 on a two-record input with one native id. -/
theorem c1_witness :
    (∃ r ∈ [natRec1, recEmptyId], r.thread_id.isSome) ∧
    threadGroups (fun _ => 0) [] [natRec1, recEmptyId] =
      tier1Map [natRec1, recEmptyId] := by
  refine ⟨by decide, ?_⟩
  exact (c1_native_tier (fun _ => 0) [] [natRec1, recEmptyId] (by decide)).1

/-! ## Claim C10: empty message ids are invisible to the reply-graph tier -/

theorem amInsert_vals {α : Type} (m : List (String × List α)) (k : String)
    (v : α) : ∀ e ∈ amInsert m k v, ∀ x ∈ e.2,
      (∃ e' ∈ m, x ∈ e'.2) ∨ x = v := by
  induction m with
  | nil =>
    intro e he x hx
    simp only [amInsert, List.mem_singleton] at he
    subst he
    simp only [List.mem_singleton] at hx
    exact Or.inr hx
  | cons p rest ih =>
    rcases p with ⟨k', vs⟩
    intro e he x hx
    by_cases hk : k' = k
    · subst hk
      simp only [amInsert, if_true] at he
      rcases List.mem_cons.1 he with rfl | he'
      · simp only [List.mem_append, List.mem_singleton] at hx
        rcases hx with hx | rfl
        · exact Or.inl ⟨(k', vs), List.mem_cons_self _ _, hx⟩
        · exact Or.inr rfl
      · exact Or.inl ⟨e, List.mem_cons_of_mem _ he', hx⟩
    · simp only [amInsert, hk, if_false] at he
      rcases List.mem_cons.1 he with rfl | he'
      · exact Or.inl ⟨(k', vs), List.mem_cons_self _ _, hx⟩
      · rcases ih e he' x hx with ⟨e', he'', hx'⟩ | rfl
        · exact Or.inl ⟨e', List.mem_cons_of_mem _ he'', hx'⟩
        · exact Or.inr rfl

theorem msgIdFind_nonempty (records : List MessageRecord) (id : String)
    (r : MessageRecord) (h : msgIdFind records id = some r) :
    r.message_id = id ∧ id ≠ "" := by
  unfold msgIdFind at h
  by_cases hid : id = ""
  · rw [if_pos hid] at h
    exact Option.noConfusion h
  · rw [if_neg hid] at h
    have hmem : r ∈ records.filter (fun r => r.message_id == id) :=
      List.mem_of_mem_getLast? (by rw [h]; exact rfl)
    have := (List.mem_filter.1 hmem).2
    exact ⟨by simpa using this, hid⟩

theorem dfsBuild_vals (records : List MessageRecord)
    (children : String → List String) :
    ∀ (fuel : Nat) (rootId tid : String)
      (st : List String × List (String × List MessageRecord)),
      (∀ e ∈ st.2, ∀ x ∈ e.2, x.message_id ≠ "") →
      ∀ e ∈ (dfsBuild (msgIdFind records) children fuel rootId tid st).2,
        ∀ x ∈ e.2, x.message_id ≠ "" := by
  intro fuel
  induction fuel with
  | zero =>
    intro rootId tid st hst
    exact hst
  | succ fuel ih =>
    intro rootId tid st hst
    obtain ⟨processed, tm⟩ := st
    show ∀ e ∈ (dfsBuild (msgIdFind records) children (fuel + 1) rootId tid
      (processed, tm)).2, ∀ x ∈ e.2, x.message_id ≠ ""
    rw [dfsBuild]
    by_cases hp : rootId ∈ processed
    · rw [if_pos hp]
      exact hst
    · rw [if_neg hp]
      have hst1 : ∀ e ∈ (match msgIdFind records rootId with
          | some r => amInsert tm tid r
          | none => tm), ∀ x ∈ e.2, x.message_id ≠ "" := by
        rcases hf : msgIdFind records rootId with _ | r
        · exact hst
        · intro e he x hx
          rcases amInsert_vals tm tid r e he x hx with ⟨e', he', hx'⟩ | rfl
          · exact hst e' he' x hx'
          · rw [(msgIdFind_nonempty records rootId x hf).1]
            exact (msgIdFind_nonempty records rootId x hf).2
      have hfold : ∀ (cs : List String)
          (st' : List String × List (String × List MessageRecord)),
          (∀ e ∈ st'.2, ∀ x ∈ e.2, x.message_id ≠ "") →
          ∀ e ∈ (cs.foldl (fun st c =>
            dfsBuild (msgIdFind records) children fuel c tid st) st').2,
            ∀ x ∈ e.2, x.message_id ≠ "" := by
        intro cs
        induction cs with
        | nil =>
          intro st' hst'
          exact hst'
        | cons c cs ihc =>
          intro st' hst'
          rw [List.foldl_cons]
          exact ihc _ (ih c tid st' hst')
      exact hfold (children rootId) _ hst1

/-- C10: every record whose `message_id` is the empty string is invisible
to the reply-graph tier — it appears in no tier-2 thread (it is omitted
from `msg_id_map`, never becomes a root, and `build_thread` appends only
`msg_id_map` values) — so every message appearing in a tier-2 thread has
a non-empty `message_id`. -/
theorem c10_empty_id_excluded :
    (∀ (records : List MessageRecord) (rootOrder : List String),
      ∀ e ∈ tier2Map records rootOrder, ∀ m ∈ e.2, m.message_id ≠ "") ∧
    (∀ (records : List MessageRecord) (rootOrder : List String)
      (r : MessageRecord), r.message_id = "" →
      ∀ e ∈ tier2Map records rootOrder, r ∉ e.2) := by
  have h1 : ∀ (records : List MessageRecord) (rootOrder : List String),
      ∀ e ∈ tier2Map records rootOrder, ∀ m ∈ e.2, m.message_id ≠ "" := by
    intro records rootOrder
    unfold tier2Map
    have hfold : ∀ (ro : List String)
        (st : List String × List (String × List MessageRecord)),
        (∀ e ∈ st.2, ∀ x ∈ e.2, x.message_id ≠ "") →
        ∀ e ∈ (ro.foldl (fun st rootId =>
          dfsBuild (msgIdFind records) (amFindD (replyMap records))
            (records.length + 1) rootId rootId st) st).2,
          ∀ x ∈ e.2, x.message_id ≠ "" := by
      intro ro
      induction ro with
      | nil =>
        intro st hst
        exact hst
      | cons rootId ro ihr =>
        intro st hst
        rw [List.foldl_cons]
        exact ihr _ (dfsBuild_vals records (amFindD (replyMap records))
          (records.length + 1) rootId rootId st hst)
    exact hfold rootOrder ([], []) (by simp)
  refine ⟨h1, ?_⟩
  intro records rootOrder r hr e he hmem
  exact h1 records rootOrder e he r hmem hr

/-- Witness for C10 on the reply scenario extended with an empty-id
record. -/
theorem c10_witness :
    ((("a", [recA, recB]) : String × List MessageRecord) ∈
        tier2Map [recA, recB, recEmptyId] ["a"] ∧
      recEmptyId.message_id = "") ∧
    recEmptyId ∉ [recA, recB] := by
  refine ⟨⟨by decide, by decide⟩, ?_⟩
  exact c10_empty_id_excluded.2 [recA, recB, recEmptyId] ["a"] recEmptyId
    (by decide) ("a", [recA, recB]) (by decide)

/-! ## Claim C5: subject tier -/

theorem mem_amFindD_amInsert {α : Type} (m : List (String × List α))
    (k t : String) (v x : α) :
    x ∈ amFindD (amInsert m k v) t ↔
      x ∈ amFindD m t ∨ (t = k ∧ x = v) := by
  rw [amFindD_amInsert]
  by_cases h : t = k
  · simp [h]
  · simp [h]

theorem amFindD_mem_entry {α : Type} (m : List (String × List α))
    (t : String) (x : α) (h : x ∈ amFindD m t) :
    ∃ e ∈ m, e.1 = t ∧ x ∈ e.2 := by
  induction m with
  | nil => exact absurd h (List.not_mem_nil x)
  | cons p rest ih =>
    rcases p with ⟨k', vs⟩
    by_cases hk : k' = t
    · subst hk
      simp only [amFindD, if_true] at h
      exact ⟨(k', vs), List.mem_cons_self _ _, rfl, h⟩
    · simp only [amFindD, hk, if_false] at h
      rcases ih h with ⟨e, he, het, hx⟩
      exact ⟨e, List.mem_cons_of_mem _ he, het, hx⟩

theorem groupFold_vals_mem {α : Type} (key : α → Option String) (l : List α) :
    ∀ e ∈ groupFold key l, ∀ x ∈ e.2, x ∈ l := by
  have step : ∀ (ll : List α) (m : List (String × List α)) (P : α → Prop),
      (∀ e ∈ m, ∀ x ∈ e.2, P x) → (∀ r ∈ ll, P r) →
      ∀ e ∈ ll.foldl (fun m r => match key r with
        | some k => amInsert m k r
        | none => m) m, ∀ x ∈ e.2, P x := by
    intro ll
    induction ll with
    | nil =>
      intro m P hm _
      exact hm
    | cons x xs ih =>
      intro m P hm hl
      simp only [List.foldl_cons]
      rcases hx : key x with _ | k
      · simp only [hx]
        exact ih m P hm (fun r hr => hl r (List.mem_cons_of_mem _ hr))
      · simp only [hx]
        refine ih (amInsert m k x) P ?_
          (fun r hr => hl r (List.mem_cons_of_mem _ hr))
        intro e he y hy
        rcases amInsert_vals m k x e he y hy with ⟨e', he', hy'⟩ | rfl
        · exact hm e' he' y hy'
        · exact hl y (List.mem_cons_self _ _)
  intro e he x hx
  exact step l [] (fun r => r ∈ l) (by simp) (fun r hr => hr) e he x hx

theorem mem_tier3 (hash : String → Int) (l : List MessageRecord)
    (r : MessageRecord) (t : String) :
    r ∈ amFindD (tier3Map hash l) t ↔
      r ∈ l ∧ t = subjectThreadId hash (normalizeSubject r.subject) := by
  have inner : ∀ (s : String) (vs : List MessageRecord)
      (tm : List (String × List MessageRecord)),
      r ∈ amFindD (vs.foldl (fun tm x =>
        amInsert tm (subjectThreadId hash s) x) tm) t ↔
      r ∈ amFindD tm t ∨ (t = subjectThreadId hash s ∧ r ∈ vs) := by
    intro s vs
    induction vs with
    | nil =>
      intro tm
      simp
    | cons v vs ih =>
      intro tm
      rw [List.foldl_cons, ih, mem_amFindD_amInsert]
      constructor
      · rintro ((h | ⟨rfl, rfl⟩) | ⟨rfl, hm⟩)
        · exact Or.inl h
        · exact Or.inr ⟨rfl, List.mem_cons_self _ _⟩
        · exact Or.inr ⟨rfl, List.mem_cons_of_mem _ hm⟩
      · rintro (h | ⟨rfl, hm⟩)
        · exact Or.inl (Or.inl h)
        · rcases List.mem_cons.1 hm with rfl | hm'
          · exact Or.inl (Or.inr ⟨rfl, rfl⟩)
          · exact Or.inr ⟨rfl, hm'⟩
  have outer : ∀ (sm : List (String × List MessageRecord))
      (tm : List (String × List MessageRecord)),
      r ∈ amFindD (sm.foldl (fun tm e => e.2.foldl (fun tm x =>
        amInsert tm (subjectThreadId hash e.1) x) tm) tm) t ↔
      r ∈ amFindD tm t ∨
        ∃ e ∈ sm, t = subjectThreadId hash e.1 ∧ r ∈ e.2 := by
    intro sm
    induction sm with
    | nil =>
      intro tm
      simp
    | cons e sm ih =>
      intro tm
      rw [List.foldl_cons, ih, inner]
      constructor
      · rintro ((h | h) | ⟨e', he', ht, hr⟩)
        · exact Or.inl h
        · exact Or.inr ⟨e, List.mem_cons_self _ _, h⟩
        · exact Or.inr ⟨e', List.mem_cons_of_mem _ he', ht, hr⟩
      · rintro (h | ⟨e', he', ht, hr⟩)
        · exact Or.inl (Or.inl h)
        · rcases List.mem_cons.1 he' with rfl | he''
          · exact Or.inl (Or.inr ⟨ht, hr⟩)
          · exact Or.inr ⟨e', he'', ht, hr⟩
  constructor
  · intro h
    rw [tier3Map, outer] at h
    rcases h with h | ⟨e, he, ht, hr⟩
    · simp [amFindD] at h
    · have hkey := groupFold_vals
        (fun r => some (normalizeSubject r.subject)) l e he r hr
      have hmem := groupFold_vals_mem
        (fun r => some (normalizeSubject r.subject)) l e he r hr
      refine ⟨hmem, ?_⟩
      rw [ht, Option.some.inj hkey]
  · rintro ⟨hmem, rfl⟩
    rw [tier3Map, outer]
    refine Or.inr ?_
    have : r ∈ amFindD
        (groupFold (fun r => some (normalizeSubject r.subject)) l)
        (normalizeSubject r.subject) := by
      rw [groupFold_find]
      exact List.mem_filter.2 ⟨hmem, by simp⟩
    rcases amFindD_mem_entry _ _ _ this with ⟨e, he, het, hr⟩
    exact ⟨e, he, by rw [het], hr⟩

/-- Counterexample to C5 as stated: with a colliding hash (possible for
Python's salted 64-bit string hash reduced mod 10^7, which must collide
on distinct subjects), two records whose subjects differ — and do not
differ merely by a `Re:`/`Fwd:` marker — land in the same thread; and the
synthetic id depends on the per-process hash, so two runs (two hash
functions) give the same subject different thread ids. -/
theorem c5_counterexample :
    normalizeSubject subjRec1.subject ≠ normalizeSubject subjRec2.subject ∧
    tier3Map (fun _ => 0) [subjRec1, subjRec2] =
      [("thread_0000000", [subjRec1, subjRec2])] ∧
    subjectThreadId (fun _ => 0) "Alpha" ≠
      subjectThreadId (fun _ => 1) "Alpha" := by
  refine ⟨by decide, by decide, by decide⟩

/-- C5 amended: two records are grouped into the same subject-tier thread
iff the synthetic ids of their normalized subjects coincide — equal
subjects after stripping one leading `Re:`/`Fwd:` (case-insensitive, no
other normalization) always coincide, but distinct normalized subjects
whose hashes collide after the 7-digit reduction are merged too.  The id
is deterministic for a fixed hash function, but Python's `hash` is salted
per process, so ids are not stable across runs.  The spec's concrete
normalization examples hold: `Re:`/`Fwd:` variants collapse, the
double-space subject stays separate. -/
theorem c5_amended (hash : String → Int) (l : List MessageRecord)
    (r1 r2 : MessageRecord) (h1 : r1 ∈ l) (h2 : r2 ∈ l) :
    (inSameThread (tier3Map hash l) r1 r2 ↔
      subjectThreadId hash (normalizeSubject r1.subject) =
        subjectThreadId hash (normalizeSubject r2.subject)) ∧
    normalizeSubject "Re: Quarterly Sync" = "Quarterly Sync" ∧
    normalizeSubject "Fwd: Quarterly Sync" = "Quarterly Sync" ∧
    normalizeSubject "Quarterly Sync" = "Quarterly Sync" ∧
    normalizeSubject "Quarterly  Sync" ≠ "Quarterly Sync" := by
  refine ⟨?_, by decide, by decide, by decide, by decide⟩
  constructor
  · rintro ⟨t, ha, hb⟩
    have h1' := (mem_tier3 hash l r1 t).1 ha
    have h2' := (mem_tier3 hash l r2 t).1 hb
    rw [← h1'.2, ← h2'.2]
  · intro heq
    refine ⟨subjectThreadId hash (normalizeSubject r1.subject), ?_, ?_⟩
    · exact (mem_tier3 hash l r1 _).2 ⟨h1, rfl⟩
    · exact (mem_tier3 hash l r2 _).2 ⟨h2, heq⟩

/-- Witness for C5 amended: `"Quarterly Sync"` and
`"Re: Quarterly Sync"` land in the same thread. -/
theorem c5_witness :
    (sQuarter ∈ [sQuarter, sReQuarter, sDouble] ∧
      sReQuarter ∈ [sQuarter, sReQuarter, sDouble]) ∧
    inSameThread (tier3Map (fun s => (s.length : Int))
      [sQuarter, sReQuarter, sDouble]) sQuarter sReQuarter := by
  refine ⟨⟨by decide, by decide⟩, ?_⟩
  exact ((c5_amended (fun s => (s.length : Int)) [sQuarter, sReQuarter, sDouble]
    sQuarter sReQuarter (by decide) (by decide)).1).2 (by decide)

/-! ## Claim C4: reply-graph tier -/

/-- Counterexample to C4 as stated: `C` (empty `in_reply_to`,
`references = [A]`) is itself a root, and Python iterates the `roots`
set in an unspecified (per-process salted) order; for the possible
enumeration `["c", "a", "d"]` the record `C` is traversed first, becomes
its own single-member thread, and `A`'s thread holds only `A` and `B` —
so the three records do NOT all land in one thread keyed by `A`'s id. -/
theorem c4_counterexample :
    (rootsList replyScenario).Perm ["c", "a", "d"] ∧
    amFindD (threadGroups (fun _ => 0) ["c", "a", "d"] replyScenario) "a" =
      [recA, recB] ∧
    recC ∉ amFindD (threadGroups (fun _ => 0) ["c", "a", "d"] replyScenario) "a" ∧
    amFindD (threadGroups (fun _ => 0) ["c", "a", "d"] replyScenario) "c" =
      [recC] := by
  refine ⟨by decide, by decide, by decide, by decide⟩

/-- C4 amended: in the reply-graph tier, `B` (`in_reply_to = A`) always
joins `A`'s thread, and `D` (dangling `in_reply_to`) is always the root
of its own single-member thread; `C` (`references = [A]`) joins `A`'s
thread exactly when the set-iteration order processes root `A` before
root `C` (`C`, having no `in_reply_to`, is itself a root).  Under any
such order the scenario yields precisely the two threads
`A ↦ [A, B, C]` and `D ↦ [D]`. -/
theorem perm_acd_cases (ro : List String) (h : ro.Perm ["a", "c", "d"]) :
    ro = ["a", "c", "d"] ∨ ro = ["a", "d", "c"] ∨ ro = ["c", "a", "d"] ∨
    ro = ["c", "d", "a"] ∨ ro = ["d", "a", "c"] ∨ ro = ["d", "c", "a"] := by
  have hlen : ro.length = 3 := by simpa using h.length_eq
  rcases ro with _ | ⟨x, ro⟩
  · simp at hlen
  rcases ro with _ | ⟨y, ro⟩
  · simp at hlen
  rcases ro with _ | ⟨z, ro⟩
  · simp at hlen
  rcases ro with _ | ⟨w, ro⟩
  · have hx : x ∈ (["a", "c", "d"] : List String) := h.subset (by simp)
    have hy : y ∈ (["a", "c", "d"] : List String) := h.subset (by simp)
    have hz : z ∈ (["a", "c", "d"] : List String) := h.subset (by simp)
    simp only [List.mem_cons, List.not_mem_nil, or_false] at hx hy hz
    rcases hx with rfl | rfl | rfl <;> rcases hy with rfl | rfl | rfl <;>
      rcases hz with rfl | rfl | rfl <;>
      first
        | decide
        | exact absurd h (by decide)
  · simp at hlen

theorem c4_amended (hash : String → Int) (ro : List String)
    (hperm : ro.Perm (rootsList replyScenario))
    (hac : ro.indexOf "a" < ro.indexOf "c") :
    amFindD (threadGroups hash ro replyScenario) "a" = [recA, recB, recC] ∧
    amFindD (threadGroups hash ro replyScenario) "d" = [recD] ∧
    amFindD (threadGroups hash ro replyScenario) "c" = [] ∧
    (threadGroups hash ro replyScenario).length = 2 := by
  have hroots : rootsList replyScenario = ["a", "c", "d"] := by decide
  rw [hroots] at hperm
  rcases perm_acd_cases ro hperm with rfl | rfl | rfl | rfl | rfl | rfl
  · exact ⟨rfl, rfl, rfl, rfl⟩
  · exact ⟨rfl, rfl, rfl, rfl⟩
  · exact absurd hac (by decide)
  · exact absurd hac (by decide)
  · exact ⟨rfl, rfl, rfl, rfl⟩
  · exact absurd hac (by decide)

/-- Witness for C4 amended at the enumeration that processes `A` first. -/
theorem c4_witness :
    ((["a", "c", "d"] : List String).Perm (rootsList replyScenario) ∧
      (["a", "c", "d"] : List String).indexOf "a" <
        (["a", "c", "d"] : List String).indexOf "c") ∧
    amFindD (threadGroups (fun _ => 0) ["a", "c", "d"] replyScenario) "a" =
      [recA, recB, recC] := by
  refine ⟨⟨by decide, by decide⟩, ?_⟩
  exact (c4_amended (fun _ => 0) ["a", "c", "d"] (by decide) (by decide)).1

/-! ## Claim C7: permutation invariance -/

theorem threadGroups_tier1 (hash : String → Int) (rootOrder : List String)
    (records : List MessageRecord)
    (h : ∃ r ∈ records, r.thread_id.isSome) :
    threadGroups hash rootOrder records = tier1Map records := by
  unfold threadGroups
  rw [if_neg (by simpa using groupFold_ne_nil (fun r => r.thread_id) records h)]

theorem amKeys_mem_amInsert {α : Type} (m : List (String × List α))
    (k t : String) (v : α) :
    t ∈ amKeys (amInsert m k v) ↔ t ∈ amKeys m ∨ t = k := by
  induction m with
  | nil => simp [amInsert, amKeys]
  | cons p rest ih =>
    rcases p with ⟨k', vs⟩
    by_cases hk : k' = k
    · subst hk
      simp only [amInsert, if_true]
      constructor
      · intro h
        exact Or.inl h
      · rintro (h | rfl)
        · exact h
        · simp [amKeys]
    · simp only [amInsert, hk, if_false]
      show t ∈ k' :: amKeys (amInsert rest k v) ↔ t ∈ k' :: amKeys rest ∨ t = k
      simp only [List.mem_cons, ih]
      tauto

theorem amKeys_nodup_amInsert {α : Type} (m : List (String × List α))
    (k : String) (v : α) (h : (amKeys m).Nodup) :
    (amKeys (amInsert m k v)).Nodup := by
  induction m with
  | nil => simp [amInsert, amKeys]
  | cons p rest ih =>
    rcases p with ⟨k', vs⟩
    rcases List.nodup_cons.1 h with ⟨hk', hrest⟩
    by_cases hk : k' = k
    · subst hk
      simpa [amInsert, amKeys] using h
    · simp only [amInsert, hk, if_false]
      show (k' :: amKeys (amInsert rest k v)).Nodup
      refine List.nodup_cons.2 ⟨?_, ih hrest⟩
      intro hmem
      rcases (amKeys_mem_amInsert rest k k' v).1 hmem with h' | rfl
      · exact hk' h'
      · exact hk rfl

theorem groupFold_keys_nodup {α : Type} (key : α → Option String)
    (l : List α) : (amKeys (groupFold key l)).Nodup := by
  have main : ∀ (ll : List α) (m : List (String × List α)),
      (amKeys m).Nodup →
      (amKeys (ll.foldl (fun m r => match key r with
        | some k => amInsert m k r
        | none => m) m)).Nodup := by
    intro ll
    induction ll with
    | nil =>
      intro m hm
      exact hm
    | cons x xs ih =>
      intro m hm
      simp only [List.foldl_cons]
      rcases hx : key x with _ | k
      · simp only [hx]
        exact ih m hm
      · simp only [hx]
        exact ih (amInsert m k x) (amKeys_nodup_amInsert m k x hm)
  exact main l [] (by simp [amKeys])

theorem groupFold_keys_mem {α : Type} (key : α → Option String) (l : List α)
    (t : String) :
    t ∈ amKeys (groupFold key l) ↔ ∃ r ∈ l, key r = some t := by
  have main : ∀ (ll : List α) (m : List (String × List α)),
      (t ∈ amKeys (ll.foldl (fun m r => match key r with
        | some k => amInsert m k r
        | none => m) m) ↔ t ∈ amKeys m ∨ ∃ r ∈ ll, key r = some t) := by
    intro ll
    induction ll with
    | nil =>
      intro m
      simp
    | cons x xs ih =>
      intro m
      simp only [List.foldl_cons]
      rcases hx : key x with _ | k
      · simp only [hx]
        rw [ih]
        constructor
        · rintro (h | ⟨r, hr, hk⟩)
          · exact Or.inl h
          · exact Or.inr ⟨r, List.mem_cons_of_mem _ hr, hk⟩
        · rintro (h | ⟨r, hr, hk⟩)
          · exact Or.inl h
          · rcases List.mem_cons.1 hr with rfl | hr'
            · rw [hx] at hk
              exact Option.noConfusion hk
            · exact Or.inr ⟨r, hr', hk⟩
      · simp only [hx]
        rw [ih, amKeys_mem_amInsert]
        constructor
        · rintro ((h | rfl) | ⟨r, hr, hk⟩)
          · exact Or.inl h
          · exact Or.inr ⟨x, List.mem_cons_self _ _, hx⟩
          · exact Or.inr ⟨r, List.mem_cons_of_mem _ hr, hk⟩
        · rintro (h | ⟨r, hr, hk⟩)
          · exact Or.inl (Or.inl h)
          · rcases List.mem_cons.1 hr with rfl | hr'
            · rw [hx] at hk
              exact Or.inl (Or.inr (Option.some.inj hk).symm)
            · exact Or.inr ⟨r, hr', hk⟩
  rw [groupFold, main l []]
  simp [amKeys]

theorem am_entries_eq {α : Type} (m : List (String × List α))
    (h : (amKeys m).Nodup) :
    m = (amKeys m).map (fun t => (t, amFindD m t)) := by
  induction m with
  | nil => rfl
  | cons p rest ih =>
    rcases p with ⟨k, vs⟩
    rcases List.nodup_cons.1 h with ⟨hk, hrest⟩
    show (k, vs) :: rest =
      (k, amFindD ((k, vs) :: rest) k) ::
        (amKeys rest).map (fun t => (t, amFindD ((k, vs) :: rest) t))
    have hfind : amFindD ((k, vs) :: rest) k = vs := by
      simp [amFindD]
    rw [hfind]
    have hmap : (amKeys rest).map (fun t => (t, amFindD ((k, vs) :: rest) t)) =
        (amKeys rest).map (fun t => (t, amFindD rest t)) := by
      refine List.map_congr_left ?_
      intro t ht
      have hne : ¬k = t := by
        intro hkt
        exact hk (hkt ▸ ht)
      simp [amFindD, hne]
    rw [hmap, ← ih hrest]

theorem sortByTimestamp_eq_of_perm (v1 v2 : List MessageRecord)
    (hperm : v1.Perm v2)
    (hd : v1.Pairwise (fun a b => a.timestamp ≠ b.timestamp)) :
    sortByTimestamp v1 = sortByTimestamp v2 := by
  have hsymm : ∀ {a b : MessageRecord},
      a.timestamp ≠ b.timestamp → b.timestamp ≠ a.timestamp :=
    fun h => h.symm
  have hd2 : v2.Pairwise (fun a b => a.timestamp ≠ b.timestamp) :=
    (hperm.pairwise_iff (fun h => hsymm h)).1 hd
  have hs1ne : (sortByTimestamp v1).Pairwise
      (fun a b => a.timestamp ≠ b.timestamp) :=
    ((sortByTimestamp_perm v1).pairwise_iff (fun h => hsymm h)).2 hd
  have hs2ne : (sortByTimestamp v2).Pairwise
      (fun a b => a.timestamp ≠ b.timestamp) :=
    ((sortByTimestamp_perm v2).pairwise_iff (fun h => hsymm h)).2 hd2
  have hs1 : (sortByTimestamp v1).Sorted
      (fun a b => a.timestamp < b.timestamp) := by
    exact ((sortByTimestamp_pairwise v1).and hs1ne).imp
      (fun hab => lt_of_le_of_ne hab.1 hab.2)
  have hs2 : (sortByTimestamp v2).Sorted
      (fun a b => a.timestamp < b.timestamp) := by
    exact ((sortByTimestamp_pairwise v2).and hs2ne).imp
      (fun hab => lt_of_le_of_ne hab.1 hab.2)
  haveI : IsAntisymm MessageRecord (fun a b => a.timestamp < b.timestamp) :=
    ⟨fun a b h1 h2 => absurd (lt_trans h1 h2) (lt_irrefl _)⟩
  exact List.eq_of_perm_of_sorted
    ((sortByTimestamp_perm v1).trans (hperm.trans (sortByTimestamp_perm v2).symm))
    hs1 hs2

/-- Counterexample to C7 as stated: two records sharing a native thread
id and a tied timestamp keep their input order inside the thread
(Python's sort is stable), so permuting the input changes the per-thread
message ordering. -/
theorem c7_counterexample :
    ([tieRec1, tieRec2] : List MessageRecord).Perm [tieRec2, tieRec1] ∧
    (buildThreads (fun _ => 0) [] [tieRec1, tieRec2]).map
      (fun t => t.messages) = [[tieRec1, tieRec2]] ∧
    (buildThreads (fun _ => 0) [] [tieRec2, tieRec1]).map
      (fun t => t.messages) = [[tieRec2, tieRec1]] ∧
    ([[tieRec1, tieRec2]] : List (List MessageRecord)) ≠
      [[tieRec2, tieRec1]] := by
  refine ⟨by decide, by decide, by decide, by decide⟩

/-- C7 amended: on inputs where at least one record carries a native
thread id (tier 1) and all record timestamps are pairwise distinct,
thread building is invariant under permutation of the input: the two
runs produce the same set of threads — same ids, same membership and the
same per-thread message ordering (here even the same thread objects, up
to presentation order).  With tied timestamps the stable sort preserves
input order, so the per-thread ordering does depend on the permutation. -/
theorem c7_amended (hash : String → Int) (ro1 ro2 : List String)
    (l1 l2 : List MessageRecord) (hp : l1.Perm l2)
    (hnat : ∃ r ∈ l1, r.thread_id.isSome)
    (hts : l1.Pairwise (fun a b => a.timestamp ≠ b.timestamp)) :
    (buildThreads hash ro1 l1).Perm (buildThreads hash ro2 l2) := by
  have hnat2 : ∃ r ∈ l2, r.thread_id.isSome := by
    rcases hnat with ⟨r, hr, hs⟩
    exact ⟨r, hp.subset hr, hs⟩
  have hnd1 : (amKeys (tier1Map l1)).Nodup := by
    unfold tier1Map
    exact groupFold_keys_nodup (fun r => r.thread_id) l1
  have hnd2 : (amKeys (tier1Map l2)).Nodup := by
    unfold tier1Map
    exact groupFold_keys_nodup (fun r => r.thread_id) l2
  have hkeys : (amKeys (tier1Map l1)).Perm (amKeys (tier1Map l2)) := by
    refine (List.perm_ext_iff_of_nodup hnd1 hnd2).2 ?_
    intro t
    rw [tier1Map, tier1Map, groupFold_keys_mem, groupFold_keys_mem]
    constructor
    · rintro ⟨r, hr, hk⟩
      exact ⟨r, hp.subset hr, hk⟩
    · rintro ⟨r, hr, hk⟩
      exact ⟨r, hp.symm.subset hr, hk⟩
  have hfun : ∀ t : String,
      (fun e : String × List MessageRecord =>
        if e.2.isEmpty then none else some (mkThreadRecord e.1 e.2))
          (t, amFindD (tier1Map l1) t) =
      (fun e : String × List MessageRecord =>
        if e.2.isEmpty then none else some (mkThreadRecord e.1 e.2))
          (t, amFindD (tier1Map l2) t) := by
    intro t
    have hf1 : amFindD (tier1Map l1) t =
        l1.filter (fun r => decide (r.thread_id = some t)) := by
      unfold tier1Map
      exact groupFold_find (fun r => r.thread_id) l1 t
    have hf2 : amFindD (tier1Map l2) t =
        l2.filter (fun r => decide (r.thread_id = some t)) := by
      unfold tier1Map
      exact groupFold_find (fun r => r.thread_id) l2 t
    have hfperm : (amFindD (tier1Map l1) t).Perm (amFindD (tier1Map l2) t) := by
      rw [hf1, hf2]
      exact hp.filter _
    have hdist : (amFindD (tier1Map l1) t).Pairwise
        (fun a b => a.timestamp ≠ b.timestamp) := by
      rw [hf1]
      exact hts.filter _
    by_cases hE : amFindD (tier1Map l1) t = []
    · have hE2 : amFindD (tier1Map l2) t = [] := by
        rw [hE] at hfperm
        exact hfperm.symm.eq_nil
      simp [hE, hE2]
    · have hE2 : amFindD (tier1Map l2) t ≠ [] := by
        intro h
        rw [h] at hfperm
        exact hE hfperm.eq_nil
      have hEb1 : (amFindD (tier1Map l1) t).isEmpty = false := by
        cases hfind : amFindD (tier1Map l1) t with
        | nil => exact absurd hfind hE
        | cons a as => rfl
      have hEb2 : (amFindD (tier1Map l2) t).isEmpty = false := by
        cases hfind : amFindD (tier1Map l2) t with
        | nil => exact absurd hfind hE2
        | cons a as => rfl
      have hsort : sortByTimestamp (amFindD (tier1Map l1) t) =
          sortByTimestamp (amFindD (tier1Map l2) t) :=
        sortByTimestamp_eq_of_perm _ _ hfperm hdist
      simp only [hEb1, hEb2, Bool.false_eq_true, if_false]
      refine congrArg some ?_
      unfold mkThreadRecord
      rw [hsort]
  have hpre : ((tier1Map l1).filterMap (fun e =>
      if e.2.isEmpty then none else some (mkThreadRecord e.1 e.2))).Perm
      ((tier1Map l2).filterMap (fun e =>
        if e.2.isEmpty then none else some (mkThreadRecord e.1 e.2))) := by
    rw [am_entries_eq (tier1Map l1) hnd1, am_entries_eq (tier1Map l2) hnd2,
      List.filterMap_map, List.filterMap_map]
    have hcomp : ((fun e : String × List MessageRecord =>
        if e.2.isEmpty then none else some (mkThreadRecord e.1 e.2)) ∘
          (fun t => (t, amFindD (tier1Map l1) t))) =
        ((fun e : String × List MessageRecord =>
          if e.2.isEmpty then none else some (mkThreadRecord e.1 e.2)) ∘
            (fun t => (t, amFindD (tier1Map l2) t))) := by
      funext t
      exact hfun t
    rw [hcomp]
    exact hkeys.filterMap _
  rw [buildThreads, buildThreads,
    threadGroups_tier1 hash ro1 l1 hnat, threadGroups_tier1 hash ro2 l2 hnat2]
  unfold finalizeThreads
  exact (sortThreadsDesc_perm _).trans (hpre.trans (sortThreadsDesc_perm _).symm)

/-- Witness for C7 amended: swapping two distinct-timestamp records with
native ids leaves the built threads a permutation of each other. -/
theorem c7_witness :
    (([natRec1, natRec2] : List MessageRecord).Perm [natRec2, natRec1] ∧
      (∃ r ∈ [natRec1, natRec2], r.thread_id.isSome) ∧
      ([natRec1, natRec2] : List MessageRecord).Pairwise
        (fun a b => a.timestamp ≠ b.timestamp)) ∧
    (buildThreads (fun _ => 0) [] [natRec1, natRec2]).Perm
      (buildThreads (fun _ => 0) [] [natRec2, natRec1]) := by
  refine ⟨⟨by decide, by decide, by decide⟩, ?_⟩
  exact c7_amended (fun _ => 0) [] [] [natRec1, natRec2] [natRec2, natRec1]
    (by decide) (by decide) (by decide)
